import Mathlib

/-!
Verification development for the pooly connection-pool library.

The Go sources are shallowly embedded: pure functions become Lean
functions over `ℚ` (for `float64` score arithmetic) and `ℤ` (for
`int32` counters); the concurrent pool is modelled as a transition
system whose events are the atomic actions of the goroutines
(`Put`, `Get`, the spawner `newConn`, the collector loop body,
`Close`, idle-timer expiry), interleaved sequentially.
-/

namespace Pooly

/-! ## host.go: series and score computation -/

/-- One entry of a host's score time series (host.go, `serie`):
the arithmetic mean of the scores recorded in one decay window and
the number of trials recorded. -/
structure Serie where
  score : ℚ
  trials : ℕ
deriving DecidableEq

/-- Value a slot contributes before weighting: its mean score when
trials were recorded, the neutral prior 0.5 otherwise
(host.go, `computeScore` loop body). -/
def slotVal (ts : List Serie) (t : ℕ) : ℚ :=
  if 0 < (ts.getD t ⟨0, 0⟩).trials then (ts.getD t ⟨0, 0⟩).score else 1 / 2

/-- The weight (`decay` in the source) given to the i-th visited slot
of a series of length n: `i / m` with `m = n*(1+n)/2` computed, as in
Go, by integer division (exact, since `n*(1+n)` is even); the walk
starts at the oldest slot, which therefore gets the smallest weight. -/
def weight (n i : ℕ) : ℚ :=
  (i : ℚ) / ((n * (1 + n) / 2 : ℕ) : ℚ)

/-- host.go, `computeScore`: walks the time series from the oldest
entry, accumulating `series[t].score * decay` (or `0.5 * decay` when
the slot has no trials) for `i = 1..n`, `t = (timeSlot + i) % n`,
`decay = i/m`, then applies the optional score calculator. -/
def computeScore (ts : List Serie) (timeSlot : ℕ) (calcF : Option (ℚ → ℚ)) : ℚ :=
  let n := ts.length
  let m := n * (1 + n) / 2
  let score :=
    (List.range n).foldl
      (fun score j =>
        let i := j + 1
        let t := (timeSlot + i) % n
        let decay : ℚ := (i : ℚ) / (m : ℚ)
        if 0 < (ts.getD t ⟨0, 0⟩).trials then score + (ts.getD t ⟨0, 0⟩).score * decay
        else score + (1 / 2) * decay)
      0
  match calcF with
  | some f => f score
  | none => score

/-- A host's scoring state (host.go, `Host`, score-relevant fields). -/
structure HostSt where
  timeSeries : List Serie
  timeSlot : ℕ
  score : ℚ
deriving DecidableEq

/-- host.go, `computeScore` effect on the host: the computed value is
memoized in the `score` field. -/
def hostComputeScore (h : HostSt) (calcF : Option (ℚ → ℚ)) : HostSt :=
  { h with score := computeScore h.timeSeries h.timeSlot calcF }

/-! Helper lemmas bridging the Go loop to a `Finset` sum. -/

lemma foldl_add_eq (g : ℕ → ℚ) :
    ∀ (l : List ℕ) (a : ℚ), l.foldl (fun acc j => acc + g j) a = a + (l.map g).sum := by
  intro l
  induction l with
  | nil => intro a; simp
  | cons x xs ih => intro a; simp [List.foldl, ih, add_assoc]

lemma sum_map_range (g : ℕ → ℚ) :
    ∀ n : ℕ, ((List.range n).map g).sum = ∑ j ∈ Finset.range n, g j := by
  intro n
  induction n with
  | zero => simp
  | succ n ih => simp [List.range_succ, Finset.sum_range_succ, ih]

lemma sum_range_shift (f : ℕ → ℚ) :
    ∀ n : ℕ, ∑ j ∈ Finset.range n, f (j + 1) = ∑ i ∈ Finset.Icc 1 n, f i := by
  intro n
  induction n with
  | zero => simp
  | succ n ih =>
    rw [Finset.sum_range_succ, ih, Finset.sum_Icc_succ_top (by omega : 1 ≤ n + 1)]

lemma sum_Icc_id_mul_two (n : ℕ) : (∑ i ∈ Finset.Icc 1 n, i) * 2 = n * (1 + n) := by
  induction n with
  | zero => simp
  | succ n ih =>
    rw [Finset.sum_Icc_succ_top (by omega : 1 ≤ n + 1), add_mul, ih]
    ring

/-- The Gauss denominator `m = n*(1+n)/2` is the exact sum `1 + ⋯ + n`. -/
lemma gauss_div (n : ℕ) : n * (1 + n) / 2 = ∑ i ∈ Finset.Icc 1 n, i := by
  exact Nat.div_eq_of_eq_mul_left (by omega) (sum_Icc_id_mul_two n).symm

lemma gauss_pos (n : ℕ) (hn : 1 ≤ n) : 0 < n * (1 + n) / 2 := by
  have h2 : 2 ≤ n * (1 + n) := by
    calc 2 = 1 * 2 := by omega
    _ ≤ n * (1 + n) := Nat.mul_le_mul hn (by omega)
  omega

/-- The series weights sum to exactly 1 when the series is nonempty. -/
lemma weights_sum_one (n : ℕ) (hn : 1 ≤ n) :
    (∑ i ∈ Finset.Icc 1 n, weight n i) = 1 := by
  have hm : ((n * (1 + n) / 2 : ℕ) : ℚ) ≠ 0 := by
    have h := gauss_pos n hn
    exact Nat.cast_ne_zero.mpr (by omega)
  unfold weight
  rw [← Finset.sum_div]
  rw [show (∑ i ∈ Finset.Icc 1 n, (i : ℚ)) = ((∑ i ∈ Finset.Icc 1 n, i : ℕ) : ℚ) by
    push_cast; rfl]
  rw [← gauss_div n]
  exact div_self hm

lemma foldl_body_eq (ts : List Serie) (slot n : ℕ) :
    ∀ (l : List ℕ) (a : ℚ),
      l.foldl (fun score j =>
          let i := j + 1
          let t := (slot + i) % n
          let decay : ℚ := (i : ℚ) / ((n * (1 + n) / 2 : ℕ) : ℚ)
          if 0 < (ts.getD t ⟨0, 0⟩).trials then score + (ts.getD t ⟨0, 0⟩).score * decay
          else score + (1 / 2) * decay) a
        = a + (l.map (fun j => weight n (j + 1) * slotVal ts ((slot + (j + 1)) % n))).sum := by
  intro l
  induction l with
  | nil => intro a; simp
  | cons x xs ih =>
    intro a
    simp only [List.foldl_cons, List.map_cons, List.sum_cons, ih]
    have hx : (if 0 < (ts.getD ((slot + (x + 1)) % n) ⟨0, 0⟩).trials then
          a + (ts.getD ((slot + (x + 1)) % n) ⟨0, 0⟩).score *
            (((x + 1 : ℕ) : ℚ) / ((n * (1 + n) / 2 : ℕ) : ℚ))
        else a + (1 / 2) * (((x + 1 : ℕ) : ℚ) / ((n * (1 + n) / 2 : ℕ) : ℚ)))
        = a + weight n (x + 1) * slotVal ts ((slot + (x + 1)) % n) := by
      simp only [slotVal, weight]
      by_cases hc : 0 < (ts.getD ((slot + (x + 1)) % n) ⟨0, 0⟩).trials
      · rw [if_pos hc, if_pos hc]; ring
      · rw [if_neg hc, if_neg hc]; ring
    rw [hx]
    ring

/-- The Go loop of `computeScore` (no calculator injected) equals the
weighted sum over the series, oldest slot getting the smallest weight. -/
lemma computeScore_eq_sum (ts : List Serie) (slot : ℕ) :
    computeScore ts slot none
      = ∑ i ∈ Finset.Icc 1 ts.length,
          weight ts.length i * slotVal ts ((slot + i) % ts.length) := by
  simp only [computeScore]
  rw [foldl_body_eq ts slot ts.length (List.range ts.length) 0, zero_add,
    sum_map_range]
  exact sum_range_shift
    (fun i => weight ts.length i * slotVal ts ((slot + i) % ts.length)) ts.length

/-- Example host used to instantiate theorems at a concrete input. -/
def exHost : HostSt := ⟨[⟨1, 1⟩], 0, -1⟩

/-- C1: for a host whose series has length `n ≥ 1` and slot cursor
`timeSlot`, `computeScore` with no score calculator stores as the
memoized score the sum over `i = 1..n` of `(i/m) * v_t` with
`m = n(n+1)/2`, `t = (timeSlot+i) mod n`, `v_t` the slot's mean score
when its trial count is positive and `0.5` otherwise; the weights
`i/m` sum to 1 (the result is a pure function of the series contents
and the cursor, so it is deterministic). -/
theorem computeScore_spec (h : HostSt) (hn : 1 ≤ h.timeSeries.length) :
    (hostComputeScore h none).score
      = ∑ i ∈ Finset.Icc 1 h.timeSeries.length,
          weight h.timeSeries.length i *
            slotVal h.timeSeries ((h.timeSlot + i) % h.timeSeries.length) ∧
    (∑ i ∈ Finset.Icc 1 h.timeSeries.length, weight h.timeSeries.length i) = 1 :=
  ⟨computeScore_eq_sum h.timeSeries h.timeSlot, weights_sum_one h.timeSeries.length hn⟩

/-- C1 witness: the theorem instantiated at a concrete one-slot host. -/
theorem computeScore_spec_witness :
    (hostComputeScore exHost none).score
      = ∑ i ∈ Finset.Icc 1 exHost.timeSeries.length,
          weight exHost.timeSeries.length i *
            slotVal exHost.timeSeries ((exHost.timeSlot + i) % exHost.timeSeries.length) ∧
    (∑ i ∈ Finset.Icc 1 exHost.timeSeries.length, weight exHost.timeSeries.length i) = 1 :=
  computeScore_spec exHost (by decide)

/-! ## atomic.go: counter and status state

The CAS retry loops of atomic.go collapse, under sequentially
interleaved atomic actions, to single test-and-update functions. -/

/-- atomic.go, `counter`: current value `c` (an int32, so it can in
principle go negative) and the fixed maximum `m`. -/
structure Counter where
  c : ℤ
  m : ℤ
deriving DecidableEq

/-- atomic.go, `counter.zero`: a positive count reports false and
leaves the counter alone; otherwise the count is swapped back to the
maximum and the call reports true. -/
def Counter.zero (k : Counter) : Bool × Counter :=
  if 0 < k.c then (false, k) else (true, { k with c := k.m })

/-- atomic.go, `counter.fetch`. -/
def Counter.fetch (k : Counter) : ℤ := k.c

/-- atomic.go, `counter.increment`: refuses (false) at the maximum,
otherwise adds one. -/
def Counter.increment (k : Counter) : Bool × Counter :=
  if k.c = k.m then (false, k) else (true, { k with c := k.c + 1 })

/-- atomic.go, `counter.decrement`: unconditionally subtracts one. -/
def Counter.decrement (k : Counter) : Counter := { k with c := k.c - 1 }

/-- atomic.go, `state.set`: succeeds only when the stored status is
strictly lower than the requested one. -/
def stateSet (s i : ℤ) : Bool × ℤ := if i ≤ s then (false, s) else (true, i)

/-- atomic.go, `state.is`: the stored status has reached rank `i`. -/
def stateIs (s i : ℤ) : Bool := decide (i ≤ s)

/-! ## pool.go: pool state and operations -/

/-- Pool status constants (pool.go: `active`, `closing`, `closed`). -/
def activeK : ℤ := 0
def closingK : ℤ := 1
def closedK : ℤ := 2

/-- Pool errors (pool.go: `ErrPoolInvalidArg`, `ErrPoolClosed`,
`ErrPoolTimeout`). -/
inductive PoolErr where
  | invalidArg
  | poolClosed
  | opTimeout
deriving DecidableEq

/-- The pool's shared state (pool.go, `Pool`). Connections are
identified by the order the pool allocated them (`nextId` is a ghost
counter of allocations); channels are FIFO buffers of optional
connection ids; `closedFlag` is each connection's `closed` field;
`collectorUp` records whether the `collect` goroutine is still
running; `connsClosed` records that the conns channel was closed. -/
structure PState where
  connsCount : Counter
  status : ℤ
  connsQ : List (Option ℕ)
  gcQ : List (Option ℕ)
  inboundGC : Bool
  connsClosed : Bool
  collectorUp : Bool
  closedFlag : ℕ → Bool
  nextId : ℕ

/-- Sending on the pool's inbound channel (pool.go, `p.inbound.channel() <- c`):
the inbound pointer designates either the conns or the gc channel. -/
def pushInbound (s : PState) (c : Option ℕ) : PState :=
  if s.inboundGC then { s with gcQ := s.gcQ ++ [c] }
  else { s with connsQ := s.connsQ ++ [c] }

/-- pool.go, `Put`: refuses on a closed pool, rejects a nil
connection, garbage-collects on a fatal error
(`e ≠ nil && ¬Driver.Temporary(e)`, given here as the two booleans),
and otherwise re-idles the connection on the inbound channel. -/
def putConn (s : PState) (c : Option ℕ) (hasErr fatal : Bool) : Option PoolErr × PState :=
  if stateIs s.status closedK then (some .poolClosed, s)
  else if c = none then (some .invalidArg, s)
  else if hasErr && fatal then (none, { s with gcQ := s.gcQ ++ [c] })
  else (none, pushInbound s c)

/-- pool.go, `collect`, body of one loop iteration after a value `c`
was received from the gc channel: a non-nil connection not yet closed
is marked closed, handed to `Driver.Close` (the returned boolean) and
the counter is decremented; a nil sentinel only decrements; a non-nil
connection already closed is left alone. -/
def collectRecv (s : PState) (c : Option ℕ) : PState × Bool :=
  match c with
  | some id =>
    if !(s.closedFlag id) then
      ({ s with closedFlag := Function.update s.closedFlag id true,
                connsCount := Counter.decrement s.connsCount }, true)
    else (s, false)
  | none => ({ s with connsCount := Counter.decrement s.connsCount }, false)

/-- Environment of a `Get` call: whether a connection's idle timer
already fired (so `setActive` fails), and the outcome of
`Driver.TestOnBorrow` / `Driver.Temporary` for each connection. -/
structure GetEnv where
  timerFired : ℕ → Bool
  borrowErr : ℕ → Bool
  borrowTemp : ℕ → Bool

/-- pool.go, `Get`: fails with `ErrPoolClosed` once the status reached
closing; receives from the conns channel (a nil value means the
channel was closed concurrently); a connection whose idle timer
expired is dropped and the call starts over; a connection failing
`TestOnBorrow` non-temporarily is sent to the gc channel and the call
starts over. An empty, still-open conns channel makes the code spawn
`New(1)` and block — spawns are separate interleaved events of
`PoolStep`, and a receive that completes after a wait is modelled by
ordering the corresponding send before the `Get`, so here the empty
case is the `WaitTimeout` outcome. `fuel` bounds the start-over
recursion (a modelling artifact; the timeout answer at fuel 0 is
never reached in the theorems below). -/
def poolGet (env : GetEnv) (fuel : ℕ) (s : PState) : Except PoolErr ℕ × PState :=
  if stateIs s.status closingK then (.error .poolClosed, s)
  else
    match s.connsQ with
    | [] => if s.connsClosed then (.error .poolClosed, s) else (.error .opTimeout, s)
    | none :: rest => (.error .poolClosed, { s with connsQ := rest })
    | some id :: rest =>
      let s1 := { s with connsQ := rest }
      if env.timerFired id then
        match fuel with
        | 0 => (.error .opTimeout, s1)
        | f + 1 => poolGet env f s1
      else if env.borrowErr id && !env.borrowTemp id then
        let s2 := { s1 with gcQ := s1.gcQ ++ [some id] }
        match fuel with
        | 0 => (.error .opTimeout, s2)
        | f + 1 => poolGet env f s2
      else (.ok id, s1)

/-- pool.go, `ActiveConns`: the fetched connection count. -/
def ActiveConns (s : PState) : ℤ := Counter.fetch s.connsCount

/-- The state of a freshly built pool (pool.go, `NewPool`): counter at
zero with the given maximum, status active, empty channels, inbound
pointing at the conns channel, collector running. -/
def initPState (max : ℤ) : PState :=
  { connsCount := { c := 0, m := max }
    status := activeK
    connsQ := []
    gcQ := []
    inboundGC := false
    connsClosed := false
    collectorUp := true
    closedFlag := fun _ => false
    nextId := 0 }

/-- Atomic events of the pool's goroutines, sequentially interleaved
(pool.go). `new_ok`/`new_fail` are the two outcomes of a spawned
`newConn` whose `counter.increment` succeeded (it allocates a fresh
connection on a successful dial, or sends the nil sentinel to gc
after the dial retries are exhausted); spawns are possible at any
time because a goroutine launched by `New` before a close can run
after it. `put` is any `Put` call (restricted to connection objects
the pool allocated), `get` any `Get` call, `idle_fire` an idle timer
pushing its connection to gc, `close_init` the atomic prefix of
`Close` (flip inbound to gc, raise status) and `close_drain` one step
of its drain loop, `gc_zero` the collector observing the drained
condition (reset counter to the maximum, raise status to closed,
close the conns channel, exit) and `gc_recv` the collector processing
one received value. -/
inductive PoolStep : PState → PState → Prop where
  | new_ok (s : PState) (h : (Counter.increment s.connsCount).1 = true) :
      PoolStep s (pushInbound
        { s with connsCount := (Counter.increment s.connsCount).2,
                 nextId := s.nextId + 1 } (some s.nextId))
  | new_fail (s : PState) (h : (Counter.increment s.connsCount).1 = true) :
      PoolStep s { s with connsCount := (Counter.increment s.connsCount).2,
                          gcQ := s.gcQ ++ [none] }
  | put (s : PState) (c : Option ℕ) (hasErr fatal : Bool)
      (hc : ∀ id, c = some id → id < s.nextId) :
      PoolStep s (putConn s c hasErr fatal).2
  | get (s : PState) (env : GetEnv) (fuel : ℕ) :
      PoolStep s (poolGet env fuel s).2
  | idle_fire (s : PState) (id : ℕ) (h : id < s.nextId) :
      PoolStep s { s with gcQ := s.gcQ ++ [some id] }
  | close_init (s : PState) (h : stateIs s.status closingK = false) :
      PoolStep s { s with inboundGC := true, status := (stateSet s.status closingK).2 }
  | close_drain (s : PState) (c : Option ℕ) (rest : List (Option ℕ))
      (h : s.connsQ = c :: rest) :
      PoolStep s { s with connsQ := rest, gcQ := s.gcQ ++ [c] }
  | gc_zero (s : PState) (hup : s.collectorUp = true)
      (h1 : stateIs s.status closingK = true)
      (h2 : (Counter.zero s.connsCount).1 = true) :
      PoolStep s { s with connsCount := (Counter.zero s.connsCount).2,
                          status := (stateSet s.status closedK).2,
                          connsClosed := s.connsClosed || (stateSet s.status closedK).1,
                          collectorUp := false }
  | gc_recv (s : PState) (c : Option ℕ) (rest : List (Option ℕ))
      (hup : s.collectorUp = true) (h : s.gcQ = c :: rest) :
      PoolStep s (collectRecv { s with gcQ := rest } c).1

/-- States a pool with maximum `max` can reach from creation. -/
def Reach (max : ℤ) (s : PState) : Prop :=
  Relation.ReflTransGen PoolStep (initPState max) s

/-- Number of nil sentinels waiting in the gc channel. -/
def gcNones (s : PState) : ℕ := (s.gcQ.filter Option.isNone).length

/-- Number of connections the pool allocated that are not yet closed. -/
def liveConns (s : PState) : ℕ :=
  ((Finset.range s.nextId).filter (fun i => s.closedFlag i = false)).card

/-- Every connection id sitting in a channel was allocated by the pool. -/
def QueueIdsOk (s : PState) : Prop :=
  ∀ id : ℕ, (some id ∈ s.connsQ ∨ some id ∈ s.gcQ) → id < s.nextId

/-- The inductive invariant of the pool transition system: while the
collector runs, the counter equals the nil sentinels in gc plus the
allocated-but-unclosed connections and the status is at most closing;
once the collector exited, the counter was reset to the maximum and
the status is closed. The conns channel never carries nil while open,
closing the conns channel only happens on the way out of the
collector, and the counter never exceeds the maximum. -/
def Inv (s : PState) : Prop :=
  0 < s.connsCount.m ∧
  (∀ i, s.nextId ≤ i → s.closedFlag i = false) ∧
  QueueIdsOk s ∧
  (none ∉ s.connsQ) ∧
  (s.connsClosed = true → s.collectorUp = false) ∧
  (s.collectorUp = true →
      s.connsCount.c = gcNones s + liveConns s ∧ s.status ≤ closingK) ∧
  (s.collectorUp = false →
      s.connsCount.c = s.connsCount.m ∧ s.status = closedK) ∧
  s.connsCount.c ≤ s.connsCount.m

/-! ## Invariant machinery -/

/-- A state change that keeps every scalar field, only consumes the
conns channel and only moves conns-channel entries into the gc
channel. `Get` iterations and the close drain loop fit this shape. -/
def Frame (s t : PState) : Prop :=
  t.connsCount = s.connsCount ∧ t.status = s.status ∧ t.closedFlag = s.closedFlag ∧
  t.nextId = s.nextId ∧ t.connsClosed = s.connsClosed ∧ t.collectorUp = s.collectorUp ∧
  t.inboundGC = s.inboundGC ∧
  (∀ x, x ∈ t.connsQ → x ∈ s.connsQ) ∧
  (∀ x, x ∈ t.gcQ → x ∈ s.gcQ ∨ x ∈ s.connsQ) ∧
  t.gcQ.filter Option.isNone = s.gcQ.filter Option.isNone

lemma frame_refl (s : PState) : Frame s s := by
  refine ⟨rfl, rfl, rfl, rfl, rfl, rfl, rfl, fun x hx => hx, fun x hx => Or.inl hx, rfl⟩

lemma frame_trans {s t u : PState} (h1 : Frame s t) (h2 : Frame t u) : Frame s u := by
  obtain ⟨e1, e2, e3, e4, e5, e6, e7, hc, hg, hf⟩ := h1
  obtain ⟨f1, f2, f3, f4, f5, f6, f7, kc, kg, kf⟩ := h2
  refine ⟨f1.trans e1, f2.trans e2, f3.trans e3, f4.trans e4, f5.trans e5,
    f6.trans e6, f7.trans e7, fun x hx => hc x (kc x hx), ?_, kf.trans hf⟩
  intro x hx
  rcases kg x hx with h | h
  · exact hg x h
  · exact Or.inr (hc x h)

lemma frame_pop {s : PState} {c : Option ℕ} {rest : List (Option ℕ)}
    (h : s.connsQ = c :: rest) : Frame s { s with connsQ := rest } := by
  refine ⟨rfl, rfl, rfl, rfl, rfl, rfl, rfl, ?_, fun x hx => Or.inl hx, rfl⟩
  intro x hx
  rw [h]
  exact List.mem_cons_of_mem _ hx

lemma frame_popPush {s : PState} {id : ℕ} {rest : List (Option ℕ)}
    (h : s.connsQ = some id :: rest) :
    Frame s { s with connsQ := rest, gcQ := s.gcQ ++ [some id] } := by
  refine ⟨rfl, rfl, rfl, rfl, rfl, rfl, rfl, ?_, ?_, ?_⟩
  · intro x hx
    rw [h]
    exact List.mem_cons_of_mem _ hx
  · intro x hx
    simp only [List.mem_append, List.mem_singleton] at hx
    rcases hx with h' | h'
    · exact Or.inl h'
    · exact Or.inr (h' ▸ (h ▸ List.mem_cons_self _ _))
  · simp [List.filter_append, Option.isNone]

/-- Every `Get` call only pops idle connections and routes bad ones to
the gc channel; all scalar pool state is untouched. -/
lemma poolGet_frame (env : GetEnv) :
    ∀ (fuel : ℕ) (s : PState), Frame s (poolGet env fuel s).2 := by
  intro fuel
  induction fuel with
  | zero =>
    intro s
    unfold poolGet
    split
    · exact frame_refl s
    · split
      · split
        · exact frame_refl s
        · exact frame_refl s
      · exact frame_pop (by assumption)
      · split
        · exact frame_pop (by assumption)
        · split
          · exact frame_popPush (by assumption)
          · exact frame_pop (by assumption)
  | succ f ih =>
    intro s
    unfold poolGet
    split
    · exact frame_refl s
    · split
      · split
        · exact frame_refl s
        · exact frame_refl s
      · exact frame_pop (by assumption)
      · split
        · exact frame_trans (frame_pop (by assumption)) (ih _)
        · split
          · exact frame_trans (frame_popPush (by assumption)) (ih _)
          · exact frame_pop (by assumption)

lemma gcNones_eq_of_filter {s t : PState}
    (h : t.gcQ.filter Option.isNone = s.gcQ.filter Option.isNone) :
    gcNones t = gcNones s := by
  unfold gcNones
  rw [h]

lemma liveConns_congr {s t : PState} (hn : t.nextId = s.nextId)
    (hf : t.closedFlag = s.closedFlag) : liveConns t = liveConns s := by
  unfold liveConns
  rw [hn, hf]

/-- `Frame` changes preserve the pool invariant. -/
lemma inv_of_frame {s t : PState} (hfr : Frame s t) (hi : Inv s) : Inv t := by
  obtain ⟨e1, e2, e3, e4, e5, e6, e7, hc, hg, hf⟩ := hfr
  obtain ⟨m1, m2, m3, m4, m5, m6, m7, m8⟩ := hi
  refine ⟨by rw [e1]; exact m1, ?_, ?_, ?_, ?_, ?_, ?_, by rw [e1]; exact m8⟩
  · intro i hi'
    rw [e3]
    exact m2 i (e4 ▸ hi')
  · intro id h
    rw [e4]
    rcases h with h | h
    · exact m3 id (Or.inl (hc _ h))
    · rcases hg _ h with h' | h'
      · exact m3 id (Or.inr h')
      · exact m3 id (Or.inl h')
  · intro h
    exact m4 (hc _ h)
  · intro h
    rw [e6]
    exact m5 (e5 ▸ h)
  · intro h
    rw [e1, e2, gcNones_eq_of_filter hf, liveConns_congr e4 e3]
    exact m6 (e6 ▸ h)
  · intro h
    rw [e1, e2]
    exact m7 (e6 ▸ h)

lemma filter_range_succ (flag : ℕ → Bool) (n : ℕ) (h : flag n = false) :
    ((Finset.range (n + 1)).filter (fun i => flag i = false)).card
      = ((Finset.range n).filter (fun i => flag i = false)).card + 1 := by
  rw [Finset.range_succ, Finset.filter_insert, if_pos h,
    Finset.card_insert_of_not_mem (by simp)]

lemma filter_range_update (flag : ℕ → Bool) (n id : ℕ) (hid : id < n)
    (h : flag id = false) :
    ((Finset.range n).filter (fun i => Function.update flag id true i = false)).card + 1
      = ((Finset.range n).filter (fun i => flag i = false)).card := by
  have hset : (Finset.range n).filter (fun i => Function.update flag id true i = false)
      = ((Finset.range n).filter (fun i => flag i = false)).erase id := by
    ext x
    simp only [Finset.mem_filter, Finset.mem_erase, Finset.mem_range, Function.update]
    constructor
    · intro ⟨hx, hu⟩
      split at hu
      · simp at hu
      · exact ⟨by assumption, hx, hu⟩
    · intro ⟨hne, hx, hfx⟩
      refine ⟨hx, ?_⟩
      split
      · exact absurd (by assumption) hne
      · exact hfx
  rw [hset, Finset.card_erase_add_one]
  exact Finset.mem_filter.mpr ⟨Finset.mem_range.mpr hid, h⟩

lemma inv_init (max : ℤ) (hm : 0 < max) : Inv (initPState max) := by
  refine ⟨hm, fun i _ => rfl, ?_, ?_, ?_, ?_, ?_, by simpa [initPState] using hm.le⟩
  · intro id h
    simp [initPState] at h
  · simp [initPState]
  · intro h
    simp [initPState] at h
  · intro _
    exact ⟨by simp [initPState, gcNones, liveConns],
      by norm_num [initPState, activeK, closingK]⟩
  · intro h
    simp [initPState] at h

lemma inv_pushGC {s : PState} (id : ℕ) (hid : id < s.nextId) (hi : Inv s) :
    Inv { s with gcQ := s.gcQ ++ [some id] } := by
  obtain ⟨m1, m2, m3, m4, m5, m6, m7, m8⟩ := hi
  have hg : gcNones { s with gcQ := s.gcQ ++ [some id] } = gcNones s := by
    simp [gcNones, List.filter_append, Option.isNone]
  have hl : liveConns { s with gcQ := s.gcQ ++ [some id] } = liveConns s := rfl
  refine ⟨m1, m2, ?_, m4, m5, ?_, m7, m8⟩
  · intro i hmem
    rcases hmem with h | h
    · exact m3 i (Or.inl h)
    · simp only [List.mem_append, List.mem_singleton] at h
      rcases h with h | h
      · exact m3 i (Or.inr h)
      · cases h
        exact hid
  · intro h
    rw [hg, hl]
    exact m6 h

lemma inv_pushInbound {s : PState} (id : ℕ) (hid : id < s.nextId) (hi : Inv s) :
    Inv (pushInbound s (some id)) := by
  unfold pushInbound
  split
  · exact inv_pushGC id hid hi
  · obtain ⟨m1, m2, m3, m4, m5, m6, m7, m8⟩ := hi
    have hg : gcNones { s with connsQ := s.connsQ ++ [some id] } = gcNones s := rfl
    have hl : liveConns { s with connsQ := s.connsQ ++ [some id] } = liveConns s := rfl
    refine ⟨m1, m2, ?_, ?_, m5, ?_, m7, m8⟩
    · intro i hmem
      rcases hmem with h | h
      · simp only [List.mem_append, List.mem_singleton] at h
        rcases h with h | h
        · exact m3 i (Or.inl h)
        · cases h
          exact hid
      · exact m3 i (Or.inr h)
    · intro hmem
      simp only [List.mem_append, List.mem_singleton] at hmem
      rcases hmem with h | h
      · exact m4 h
      · cases h
    · intro h
      rw [hg, hl]
      exact m6 h

/-- While the counter is strictly below the maximum the collector is
still up (the exited branch pins the counter at the maximum). -/
lemma collectorUp_of_increment {s : PState}
    (h : (Counter.increment s.connsCount).1 = true) (hi : Inv s) :
    s.collectorUp = true := by
  have hcm : s.connsCount.c ≠ s.connsCount.m := by
    by_contra hc
    simp [Counter.increment, hc] at h
  cases hcu : s.collectorUp
  · exact absurd (hi.2.2.2.2.2.2.1 hcu).1 hcm
  · rfl

lemma increment_snd {k : Counter} (h : (Counter.increment k).1 = true) :
    (Counter.increment k).2 = { c := k.c + 1, m := k.m } := by
  have hcm : k.c ≠ k.m := by
    by_contra hc
    simp [Counter.increment, hc] at h
  simp [Counter.increment, hcm]

lemma inv_new_ok {s : PState} (h : (Counter.increment s.connsCount).1 = true)
    (hi : Inv s) :
    Inv (pushInbound { s with connsCount := (Counter.increment s.connsCount).2,
                              nextId := s.nextId + 1 } (some s.nextId)) := by
  have hup := collectorUp_of_increment h hi
  obtain ⟨m1, m2, m3, m4, m5, m6, m7, m8⟩ := hi
  have hcm : s.connsCount.c ≠ s.connsCount.m := by
    by_contra hc
    simp [Counter.increment, hc] at h
  have hflag : s.closedFlag s.nextId = false := m2 _ le_rfl
  have hi0 : Inv { s with connsCount := (Counter.increment s.connsCount).2,
                          nextId := s.nextId + 1 } := by
    have hg : gcNones { s with connsCount := (Counter.increment s.connsCount).2, nextId := s.nextId + 1 } = gcNones s := rfl
    have hlive : liveConns { s with connsCount := (Counter.increment s.connsCount).2, nextId := s.nextId + 1 } = liveConns s + 1 := by
      unfold liveConns
      exact filter_range_succ s.closedFlag s.nextId hflag
    refine ⟨by rw [increment_snd h]; exact m1, ?_, ?_, m4, m5, ?_, ?_, ?_⟩
    · intro i hi'
      exact m2 i (Nat.le_of_succ_le (show s.nextId + 1 ≤ i from hi'))
    · intro i hmem
      exact Nat.lt_succ_of_lt (m3 i hmem)
    · intro h'
      have h6 := m6 h'
      refine ⟨?_, h6.2⟩
      rw [hg, hlive, increment_snd h]
      show s.connsCount.c + 1 = (gcNones s : ℤ) + ((liveConns s + 1 : ℕ) : ℤ)
      push_cast
      omega
    · intro h'
      exact absurd (hup.symm.trans h') (by simp)
    · rw [increment_snd h]
      show s.connsCount.c + 1 ≤ s.connsCount.m
      omega
  exact inv_pushInbound s.nextId (Nat.lt_succ_self s.nextId) hi0

lemma inv_new_fail {s : PState} (h : (Counter.increment s.connsCount).1 = true)
    (hi : Inv s) :
    Inv { s with connsCount := (Counter.increment s.connsCount).2,
                 gcQ := s.gcQ ++ [none] } := by
  have hup := collectorUp_of_increment h hi
  obtain ⟨m1, m2, m3, m4, m5, m6, m7, m8⟩ := hi
  have hcm : s.connsCount.c ≠ s.connsCount.m := by
    by_contra hc
    simp [Counter.increment, hc] at h
  have hg : gcNones { s with connsCount := (Counter.increment s.connsCount).2, gcQ := s.gcQ ++ [none] } = gcNones s + 1 := by
    simp [gcNones, List.filter_append, Option.isNone]
  have hl : liveConns { s with connsCount := (Counter.increment s.connsCount).2, gcQ := s.gcQ ++ [none] } = liveConns s := rfl
  refine ⟨by rw [increment_snd h]; exact m1, m2, ?_, m4, m5, ?_, ?_, ?_⟩
  · intro i hmem
    rcases hmem with hc' | hc'
    · exact m3 i (Or.inl hc')
    · simp only [List.mem_append, List.mem_singleton] at hc'
      rcases hc' with hc' | hc'
      · exact m3 i (Or.inr hc')
      · cases hc'
  · intro h'
    have h6 := m6 h'
    refine ⟨?_, h6.2⟩
    rw [hg, hl, increment_snd h]
    show s.connsCount.c + 1 = ((gcNones s + 1 : ℕ) : ℤ) + (liveConns s : ℤ)
    push_cast
    omega
  · intro h'
    exact absurd (hup.symm.trans h') (by simp)
  · rw [increment_snd h]
    show s.connsCount.c + 1 ≤ s.connsCount.m
    omega

lemma inv_put {s : PState} (c : Option ℕ) (hasErr fatal : Bool)
    (hc : ∀ id, c = some id → id < s.nextId) (hi : Inv s) :
    Inv (putConn s c hasErr fatal).2 := by
  unfold putConn
  split
  · exact hi
  · split
    · exact hi
    · split
      · obtain ⟨id, rfl⟩ := Option.ne_none_iff_exists'.mp (by assumption)
        exact inv_pushGC id (hc id rfl) hi
      · obtain ⟨id, rfl⟩ := Option.ne_none_iff_exists'.mp (by assumption)
        exact inv_pushInbound id (hc id rfl) hi

lemma inv_close_init {s : PState} (h : stateIs s.status closingK = false) (hi : Inv s) :
    Inv { s with inboundGC := true, status := (stateSet s.status closingK).2 } := by
  obtain ⟨m1, m2, m3, m4, m5, m6, m7, m8⟩ := hi
  have hlt : s.status < closingK := by
    unfold stateIs at h
    have := of_decide_eq_false h
    omega
  have hst : (stateSet s.status closingK).2 = closingK := by
    unfold stateSet
    rw [if_neg (by omega)]
  refine ⟨m1, m2, m3, m4, m5, ?_, ?_, m8⟩
  · intro h'
    have h6 := m6 h'
    refine ⟨h6.1, ?_⟩
    show (stateSet s.status closingK).2 ≤ closingK
    rw [hst]
  · intro h'
    have h7 := m7 h'
    exfalso
    rw [h7.2] at hlt
    norm_num [closingK, closedK] at hlt

lemma inv_close_drain {s : PState} {c : Option ℕ} {rest : List (Option ℕ)}
    (h : s.connsQ = c :: rest) (hi : Inv s) :
    Inv { s with connsQ := rest, gcQ := s.gcQ ++ [c] } := by
  obtain ⟨id, rfl⟩ : ∃ id, c = some id := by
    cases c with
    | none => exact absurd (h ▸ List.mem_cons_self none rest) hi.2.2.2.1
    | some id => exact ⟨id, rfl⟩
  exact inv_of_frame (frame_popPush h) hi

lemma zero_snd {k : Counter} (h : (Counter.zero k).1 = true) :
    (Counter.zero k).2 = { c := k.m, m := k.m } := by
  have hc : ¬ 0 < k.c := by
    by_contra hc
    simp [Counter.zero, hc] at h
  simp [Counter.zero, hc]

lemma inv_gc_zero {s : PState} (hup : s.collectorUp = true)
    (h1 : stateIs s.status closingK = true) (h2 : (Counter.zero s.connsCount).1 = true)
    (hi : Inv s) :
    Inv { s with connsCount := (Counter.zero s.connsCount).2,
                 status := (stateSet s.status closedK).2,
                 connsClosed := s.connsClosed || (stateSet s.status closedK).1,
                 collectorUp := false } := by
  obtain ⟨m1, m2, m3, m4, m5, m6, m7, m8⟩ := hi
  have h6 := m6 hup
  have hst : (stateSet s.status closedK).2 = closedK := by
    unfold stateSet
    rw [if_neg (by unfold closingK at h6; unfold closedK; omega)]
  refine ⟨by rw [zero_snd h2]; exact m1, m2, m3, m4, fun _ => rfl, ?_, ?_, ?_⟩
  · intro h'
    simp at h'
  · intro _
    exact ⟨by rw [zero_snd h2], by rw [hst]⟩
  · rw [zero_snd h2]

lemma gcNones_cons_none {s : PState} {rest : List (Option ℕ)}
    (h : s.gcQ = none :: rest) :
    gcNones s = gcNones { s with gcQ := rest } + 1 := by
  unfold gcNones
  rw [h]
  simp [Option.isNone, Nat.add_comm]

lemma gcNones_cons_some {s : PState} {id : ℕ} {rest : List (Option ℕ)}
    (h : s.gcQ = some id :: rest) :
    gcNones s = gcNones { s with gcQ := rest } := by
  unfold gcNones
  rw [h]
  simp [Option.isNone]

lemma collectRecv_none (s : PState) :
    collectRecv s none = ({ s with connsCount := Counter.decrement s.connsCount }, false) :=
  rfl

lemma collectRecv_some (s : PState) (id : ℕ) :
    collectRecv s (some id)
      = if (!s.closedFlag id) = true
        then ({ s with closedFlag := Function.update s.closedFlag id true, connsCount := Counter.decrement s.connsCount }, true)
        else (s, false) :=
  rfl

lemma collectRecv_closed {s : PState} {id : ℕ} (h : s.closedFlag id = true) :
    collectRecv s (some id) = (s, false) := by
  rw [collectRecv_some, h]
  rfl

lemma collectRecv_open {s : PState} {id : ℕ} (h : s.closedFlag id = false) :
    collectRecv s (some id)
      = ({ s with closedFlag := Function.update s.closedFlag id true, connsCount := Counter.decrement s.connsCount }, true) := by
  rw [collectRecv_some, h]
  rfl

lemma inv_gc_recv {s : PState} {c : Option ℕ} {rest : List (Option ℕ)}
    (hup : s.collectorUp = true) (h : s.gcQ = c :: rest) (hi : Inv s) :
    Inv (collectRecv { s with gcQ := rest } c).1 := by
  obtain ⟨m1, m2, m3, m4, m5, m6, m7, m8⟩ := hi
  have h6 := m6 hup
  have hrest : ∀ i : ℕ, some i ∈ rest → some i ∈ s.gcQ := by
    intro i hi'
    rw [h]
    exact List.mem_cons_of_mem _ hi'
  have hqok : QueueIdsOk { s with gcQ := rest } := by
    intro i hmem
    rcases hmem with h' | h'
    · exact m3 i (Or.inl h')
    · exact m3 i (Or.inr (hrest i h'))
  cases c with
  | none =>
    rw [collectRecv_none]
    refine ⟨m1, m2, hqok, m4, m5, ?_, ?_, ?_⟩
    · intro h'
      refine ⟨?_, h6.2⟩
      show s.connsCount.c - 1
          = (gcNones { s with gcQ := rest } : ℤ) + (liveConns { s with gcQ := rest } : ℤ)
      have hg := gcNones_cons_none h
      have hl : liveConns { s with gcQ := rest } = liveConns s := rfl
      rw [hl]
      have h1 := h6.1
      rw [hg] at h1
      push_cast at h1 ⊢
      omega
    · intro h'
      exact absurd (hup.symm.trans h') (by simp)
    · show s.connsCount.c - 1 ≤ s.connsCount.m
      omega
  | some id =>
    have hidlt : id < s.nextId := m3 id (Or.inr (h ▸ List.mem_cons_self _ _))
    have hg := gcNones_cons_some h
    cases hflag : s.closedFlag id with
    | true =>
      rw [collectRecv_closed (show ({ s with gcQ := rest } : PState).closedFlag id = true from hflag)]
      refine ⟨m1, m2, hqok, m4, m5, ?_, m7, m8⟩
      intro h'
      refine ⟨?_, h6.2⟩
      show s.connsCount.c
          = (gcNones { s with gcQ := rest } : ℤ) + (liveConns { s with gcQ := rest } : ℤ)
      rw [← hg]
      exact h6.1
    | false =>
      rw [collectRecv_open (show ({ s with gcQ := rest } : PState).closedFlag id = false from hflag)]
      have hlive : liveConns { s with gcQ := rest, closedFlag := Function.update s.closedFlag id true, connsCount := Counter.decrement s.connsCount } + 1 = liveConns s := by
        unfold liveConns
        exact filter_range_update s.closedFlag s.nextId id hidlt hflag
      refine ⟨m1, ?_, hqok, m4, m5, ?_, ?_, ?_⟩
      · intro i hi'
        have hi2 : s.nextId ≤ i := hi'
        show Function.update s.closedFlag id true i = false
        rw [Function.update_noteq (by omega) true s.closedFlag]
        exact m2 i hi2
      · intro h'
        refine ⟨?_, h6.2⟩
        have h1 := h6.1
        rw [hg, ← hlive] at h1
        show s.connsCount.c - 1
            = (gcNones { s with gcQ := rest } : ℤ)
              + (liveConns { s with gcQ := rest, closedFlag := Function.update s.closedFlag id true, connsCount := Counter.decrement s.connsCount } : ℤ)
        push_cast at h1 ⊢
        omega
      · intro h'
        exact absurd (hup.symm.trans h') (by simp)
      · show s.connsCount.c - 1 ≤ s.connsCount.m
        omega

/-- One pool event preserves the invariant. -/
lemma inv_step {s t : PState} (hi : Inv s) (hstep : PoolStep s t) : Inv t := by
  cases hstep with
  | new_ok h => exact inv_new_ok h hi
  | new_fail h => exact inv_new_fail h hi
  | put c hasErr fatal hc => exact inv_put c hasErr fatal hc hi
  | get env fuel => exact inv_of_frame (poolGet_frame env fuel s) hi
  | idle_fire id h => exact inv_pushGC id h hi
  | close_init h => exact inv_close_init h hi
  | close_drain c rest h => exact inv_close_drain h hi
  | gc_zero hup h1 h2 => exact inv_gc_zero hup h1 h2 hi
  | gc_recv c rest hup h => exact inv_gc_recv hup h hi

/-- Every reachable pool state satisfies the invariant. -/
lemma inv_reach {max : ℤ} (hm : 0 < max) {s : PState} (h : Reach max s) : Inv s := by
  induction h with
  | refl => exact inv_init max hm
  | tail _ hstep ih => exact inv_step ih hstep
/-! ## Field-preservation and monotonicity helpers -/

lemma pushInbound_connsCount (s : PState) (c : Option ℕ) :
    (pushInbound s c).connsCount = s.connsCount := by
  unfold pushInbound
  split <;> rfl

lemma pushInbound_status (s : PState) (c : Option ℕ) :
    (pushInbound s c).status = s.status := by
  unfold pushInbound
  split <;> rfl

lemma putConn_connsCount (s : PState) (c : Option ℕ) (a b : Bool) :
    (putConn s c a b).2.connsCount = s.connsCount := by
  unfold putConn
  split
  · rfl
  · split
    · rfl
    · split
      · rfl
      · exact pushInbound_connsCount s c

lemma putConn_status (s : PState) (c : Option ℕ) (a b : Bool) :
    (putConn s c a b).2.status = s.status := by
  unfold putConn
  split
  · rfl
  · split
    · rfl
    · split
      · rfl
      · exact pushInbound_status s c

lemma collectRecv_status (s : PState) (c : Option ℕ) :
    (collectRecv s c).1.status = s.status := by
  cases c with
  | none => rfl
  | some id =>
    rw [collectRecv_some]
    split <;> rfl

lemma collectRecv_m (s : PState) (c : Option ℕ) :
    (collectRecv s c).1.connsCount.m = s.connsCount.m := by
  cases c with
  | none => rfl
  | some id =>
    rw [collectRecv_some]
    split <;> rfl

lemma increment_m (k : Counter) : (Counter.increment k).2.m = k.m := by
  unfold Counter.increment
  split <;> rfl

lemma zero_m (k : Counter) : (Counter.zero k).2.m = k.m := by
  unfold Counter.zero
  split <;> rfl

lemma stateSet_le (st i : ℤ) : st ≤ (stateSet st i).2 := by
  unfold stateSet
  split
  · exact le_rfl
  · omega

/-- No pool event changes the counter's maximum. -/
lemma step_m_eq {s t : PState} (h : PoolStep s t) : t.connsCount.m = s.connsCount.m := by
  cases h with
  | new_ok h => rw [pushInbound_connsCount]; exact increment_m s.connsCount
  | new_fail h => exact increment_m s.connsCount
  | put c a b hc => rw [putConn_connsCount]
  | get env fuel => rw [(poolGet_frame env fuel s).1]
  | idle_fire id h => rfl
  | close_init h => rfl
  | close_drain c rest h => rfl
  | gc_zero hup h1 h2 => exact zero_m s.connsCount
  | gc_recv c rest hup h => exact collectRecv_m _ c

lemma reach_m_eq {max : ℤ} {s : PState} (h : Reach max s) : s.connsCount.m = max := by
  induction h with
  | refl => rfl
  | tail _ hstep ih => rw [step_m_eq hstep, ih]

/-- No pool event ever lowers the status. -/
lemma step_status_mono {s t : PState} (h : PoolStep s t) : s.status ≤ t.status := by
  cases h with
  | new_ok h => rw [pushInbound_status]
  | new_fail h => exact le_rfl
  | put c a b hc => rw [putConn_status]
  | get env fuel => rw [(poolGet_frame env fuel s).2.1]
  | idle_fire id h => exact le_rfl
  | close_init h => exact stateSet_le s.status closingK
  | close_drain c rest h => exact le_rfl
  | gc_zero hup h1 h2 => exact stateSet_le s.status closedK
  | gc_recv c rest hup h => rw [collectRecv_status]

/-! ## Example pool run: create, close, collector drains and exits -/

def exEnv : GetEnv := ⟨fun _ => false, fun _ => false, fun _ => false⟩

def exPool0 : PState := initPState 1

def exPool1 : PState :=
  { exPool0 with inboundGC := true, status := (stateSet exPool0.status closingK).2 }

def exPool2 : PState :=
  { exPool1 with connsCount := (Counter.zero exPool1.connsCount).2,
                 status := (stateSet exPool1.status closedK).2,
                 connsClosed := exPool1.connsClosed || (stateSet exPool1.status closedK).1,
                 collectorUp := false }

lemma exPool_reach : Reach 1 exPool2 := by
  refine Relation.ReflTransGen.tail (Relation.ReflTransGen.tail Relation.ReflTransGen.refl ?_)
    (PoolStep.gc_zero exPool1 rfl (by decide) (by decide))
  exact PoolStep.close_init exPool0 (by decide)

/-! ## Claim theorems about the pool -/

/-- C2: once `Close` has completed on a pool (observable as the conns
channel having been closed, which is what lets `Close`'s drain loop
return), every subsequent `Get` returns `ErrPoolClosed` and every
subsequent `Put` — in particular a `Put` of a fresh connection with a
nil error — returns `ErrPoolClosed`; both return immediately with the
state unchanged (no panic, no blocking: the early status test runs
before any channel operation). -/
theorem closed_pool_get_put (max : ℤ) (hm : 0 < max) (s : PState)
    (hr : Reach max s) (hc : s.connsClosed = true) :
    (∀ env fuel, poolGet env fuel s = (.error .poolClosed, s)) ∧
    (∀ c hasErr fatal, putConn s c hasErr fatal = (some .poolClosed, s)) := by
  obtain ⟨m1, m2, m3, m4, m5, m6, m7, m8⟩ := inv_reach hm hr
  have hst : s.status = closedK := (m7 (m5 hc)).2
  have h1 : stateIs s.status closingK = true := by
    rw [hst]
    decide
  have h2 : stateIs s.status closedK = true := by
    rw [hst]
    decide
  constructor
  · intro env fuel
    unfold poolGet
    rw [h1]
    rfl
  · intro c hasErr fatal
    unfold putConn
    rw [h2]
    rfl

/-- C2 witness: a concrete pool after create, Close and collector
exit. -/
theorem closed_pool_get_put_witness :
    (∀ env fuel, poolGet env fuel exPool2 = (.error .poolClosed, exPool2)) ∧
    (∀ c hasErr fatal, putConn exPool2 c hasErr fatal = (some .poolClosed, exPool2)) :=
  closed_pool_get_put 1 (by norm_num) exPool2 exPool_reach (by decide)

/-- One collector receive from the head of the gc queue
(pool.go `collect`: `c = <-p.gc` followed by the loop body). -/
def gcRecvStep (s : PState) : PState :=
  match s.gcQ with
  | c :: rest => (collectRecv { s with gcQ := rest } c).1
  | [] => s

/-- C3 counterexample: the claim quantifies over every sequence of
Get, Put, New, Close, idle expiry and garbage collection, but a `Put`
of a fresh, never-pool-allocated connection with a fatal error
followed by one collector receive drives the counter to `-1` on a
fresh pool: the connection was never counted, yet the collector
decrements for it. -/
theorem activeConns_negative_cex :
    ActiveConns (gcRecvStep (putConn (initPState 1) (some 0) true true).2) = -1 ∧
    ActiveConns (gcRecvStep (putConn (initPState 1) (some 0) true true).2) < 0 := by
  constructor <;> decide

/-- C3 (amended): `counter.increment` refuses to exceed the maximum,
and for every pool state reachable by Get, Put, New, Close, idle
expiry and garbage collection — with Put and idle expiry restricted
to connection objects the pool itself allocated — the counter
reported by `ActiveConns` stays within `0 ≤ ActiveConns ≤ MaxConns`. -/
theorem activeConns_bounds (max : ℤ) (hm : 0 < max) (s : PState) (hr : Reach max s) :
    (∀ k : Counter, k.c = k.m → Counter.increment k = (false, k)) ∧
    0 ≤ ActiveConns s ∧ ActiveConns s ≤ max := by
  obtain ⟨m1, m2, m3, m4, m5, m6, m7, m8⟩ := inv_reach hm hr
  have hmeq := reach_m_eq hr
  refine ⟨?_, ?_, ?_⟩
  · intro k hk
    unfold Counter.increment
    rw [if_pos hk]
  · show (0 : ℤ) ≤ s.connsCount.c
    cases hcu : s.collectorUp
    · rw [(m7 hcu).1]
      omega
    · have h6 := m6 hcu
      rw [h6.1]
      positivity
  · show s.connsCount.c ≤ max
    rw [← hmeq]
    exact m8

/-- C3 witness: the bounds at the freshly created pool. -/
theorem activeConns_bounds_witness :
    (∀ k : Counter, k.c = k.m → Counter.increment k = (false, k)) ∧
    0 ≤ ActiveConns (initPState 1) ∧ ActiveConns (initPState 1) ≤ 1 :=
  activeConns_bounds 1 (by norm_num) (initPState 1) Relation.ReflTransGen.refl

/-- C4: `state.set(i)` succeeds exactly when the stored status is
strictly below `i`, fails leaving the status unchanged otherwise, and
consequently no pool event ever lowers the observed status: it only
moves forward along ACTIVE → CLOSING → CLOSED. -/
theorem status_monotone :
    (∀ st i : ℤ, (stateSet st i).1 = true ↔ st < i) ∧
    (∀ st i : ℤ, (stateSet st i).1 = false → (stateSet st i).2 = st) ∧
    (∀ st i : ℤ, st ≤ (stateSet st i).2) ∧
    (∀ s t : PState, PoolStep s t → s.status ≤ t.status) := by
  refine ⟨?_, ?_, stateSet_le, fun s t h => step_status_mono h⟩
  · intro st i
    unfold stateSet
    by_cases h : i ≤ st
    · rw [if_pos h]
      simp
      omega
    · rw [if_neg h]
      simp
      omega
  · intro st i h
    unfold stateSet at h ⊢
    by_cases h' : i ≤ st
    · rw [if_pos h']
    · rw [if_neg h'] at h
      simp at h

/-- C4 witness: the compare-and-set at concrete statuses and a
concrete step. -/
theorem status_monotone_witness :
    (stateSet activeK closingK).1 = true ∧
    exPool0.status ≤ exPool1.status :=
  ⟨(status_monotone.1 activeK closingK).mpr (by norm_num [activeK, closingK]),
   status_monotone.2.2.2 exPool0 exPool1 (PoolStep.close_init exPool0 (by decide))⟩

/-- Example state for the gc-loop claims: one connection allocated
and already marked closed, counter at 5. -/
def exClosedConn : PState :=
  { initPState 1 with closedFlag := fun i => i == 0, connsCount := { c := 5, m := 5 },
                      nextId := 1 }

/-- C5 counterexample: receiving a non-nil, already-closed connection
leaves the counter untouched — the code's `else if c == nil` guard
skips the decrement — whereas the claim asserts a decrement. -/
theorem collect_recv_closed_cex :
    (collectRecv exClosedConn (some 0)).1.connsCount.c = 5 ∧
    ¬ (collectRecv exClosedConn (some 0)).1.connsCount.c = 5 - 1 ∧
    (collectRecv exClosedConn (some 0)).2 = false := by
  refine ⟨by decide, by decide, by decide⟩

/-- C5 (amended): for each value received by the gc loop: (a) a
non-nil, not-yet-closed connection is marked closed, passed to
`Driver.Close` (the boolean) and the counter is decremented, and a
second receive of the same connection neither closes it again nor
decrements (so `Driver.Close` runs exactly once per connection); (b) a
non-nil, already-closed connection is a no-op — neither `Driver.Close`
nor a decrement; (c) a nil sentinel only decrements the counter. -/
theorem collect_recv_spec (s : PState) (id : ℕ) :
    (s.closedFlag id = false →
        (collectRecv s (some id)).2 = true ∧
        (collectRecv s (some id)).1.connsCount.c = s.connsCount.c - 1 ∧
        (collectRecv s (some id)).1.closedFlag id = true ∧
        (collectRecv (collectRecv s (some id)).1 (some id)).2 = false ∧
        (collectRecv (collectRecv s (some id)).1 (some id)).1
          = (collectRecv s (some id)).1) ∧
    (s.closedFlag id = true →
        (collectRecv s (some id)).2 = false ∧ (collectRecv s (some id)).1 = s) ∧
    ((collectRecv s none).2 = false ∧
      (collectRecv s none).1.connsCount.c = s.connsCount.c - 1 ∧
      (collectRecv s none).1.closedFlag = s.closedFlag) := by
  refine ⟨?_, ?_, rfl, rfl, rfl⟩
  · intro h
    rw [collectRecv_open h]
    have hflag : (Function.update s.closedFlag id true) id = true :=
      Function.update_same id true s.closedFlag
    refine ⟨rfl, rfl, hflag, ?_, ?_⟩
    · rw [collectRecv_closed (show ({ s with closedFlag := Function.update s.closedFlag id true, connsCount := Counter.decrement s.connsCount } : PState).closedFlag id = true from hflag)]
    · rw [collectRecv_closed (show ({ s with closedFlag := Function.update s.closedFlag id true, connsCount := Counter.decrement s.connsCount } : PState).closedFlag id = true from hflag)]
  · intro h
    rw [collectRecv_closed h]
    exact ⟨rfl, rfl⟩

/-- C5 witness: the not-yet-closed and nil cases at a concrete state. -/
theorem collect_recv_spec_witness :
    ((collectRecv (initPState 1) (some 0)).2 = true ∧
      (collectRecv (initPState 1) (some 0)).1.connsCount.c
        = (initPState 1).connsCount.c - 1 ∧
      (collectRecv (initPState 1) (some 0)).1.closedFlag 0 = true ∧
      (collectRecv (collectRecv (initPState 1) (some 0)).1 (some 0)).2 = false ∧
      (collectRecv (collectRecv (initPState 1) (some 0)).1 (some 0)).1
        = (collectRecv (initPState 1) (some 0)).1) ∧
    ((collectRecv (initPState 1) none).2 = false ∧
      (collectRecv (initPState 1) none).1.connsCount.c
        = (initPState 1).connsCount.c - 1 ∧
      (collectRecv (initPState 1) none).1.closedFlag = (initPState 1).closedFlag) :=
  ⟨(collect_recv_spec (initPState 1) 0).1 (by decide),
   (collect_recv_spec (initPState 1) 0).2.2⟩

/-- A `Get` whose conns channel head is a live connection returns it. -/
lemma poolGet_head_ok (env : GetEnv) (fuel : ℕ) (s : PState) (id : ℕ)
    (rest : List (Option ℕ))
    (h2 : stateIs s.status closingK = false) (hq : s.connsQ = some id :: rest)
    (ht : env.timerFired id = false)
    (hb : (env.borrowErr id && !env.borrowTemp id) = false) :
    poolGet env fuel s = (.ok id, { s with connsQ := rest }) := by
  unfold poolGet
  rw [h2, hq]
  simp [ht, hb]

/-- C9: on an active pool with an empty idle channel, not taken over
by Close (`inbound` still points at the conns channel), a successful
`Put(c, nil)` followed by the next `Get` returns the very same
connection `c` — provided `c`'s idle timer has not fired in between
and `Driver.TestOnBorrow` does not fail non-temporarily on `c`. -/
theorem put_then_get (s : PState) (id : ℕ) (env : GetEnv) (fuel : ℕ)
    (hst : s.status = activeK) (hin : s.inboundGC = false) (hq : s.connsQ = [])
    (ht : env.timerFired id = false)
    (hb : (env.borrowErr id && !env.borrowTemp id) = false) :
    (putConn s (some id) false false).1 = none ∧
    (poolGet env fuel (putConn s (some id) false false).2).1 = .ok id := by
  have h1 : stateIs s.status closedK = false := by
    rw [hst]
    decide
  have h2 : stateIs s.status closingK = false := by
    rw [hst]
    decide
  have hput : putConn s (some id) false false
      = (none, { s with connsQ := s.connsQ ++ [some id] }) := by
    unfold putConn
    rw [h1]
    simp [pushInbound, hin]
  have hsnd : (putConn s (some id) false false).2
      = { s with connsQ := s.connsQ ++ [some id] } := by
    rw [hput]
  refine ⟨by rw [hput], ?_⟩
  rw [hsnd]
  rw [poolGet_head_ok env fuel { s with connsQ := s.connsQ ++ [some id] } id [] h2
    (by show s.connsQ ++ [some id] = some id :: []; rw [hq]; rfl) ht hb]

/-- C9 witness: the round trip on a concrete fresh pool. -/
theorem put_then_get_witness :
    (putConn (initPState 1) (some 0) false false).1 = none ∧
    (poolGet exEnv 0 (putConn (initPState 1) (some 0) false false).2).1 = .ok 0 :=
  put_then_get (initPState 1) 0 exEnv 0 rfl rfl rfl rfl rfl

/-- C10: the collector's drain-complete test `counter.zero` resets a
counter observed at (or below) zero back to the maximum, and
consequently on every reachable pool state whose status is CLOSED
after the collector drained, `ActiveConns` reports `MaxConns` (the
counter's maximum), not 0. -/
theorem drained_pool_active_conns (max : ℤ) (hm : 0 < max) (s : PState)
    (hr : Reach max s) (hcl : s.status = closedK) :
    (∀ k : Counter, k.c ≤ 0 → Counter.zero k = (true, { c := k.m, m := k.m })) ∧
    ActiveConns s = max ∧ ActiveConns s ≠ 0 := by
  obtain ⟨m1, m2, m3, m4, m5, m6, m7, m8⟩ := inv_reach hm hr
  have hmeq := reach_m_eq hr
  have hdown : s.collectorUp = false := by
    cases hcu : s.collectorUp
    · rfl
    · have h6 := m6 hcu
      exfalso
      rw [hcl] at h6
      norm_num [closingK, closedK] at h6
  have hc : ActiveConns s = max := by
    show s.connsCount.c = max
    rw [(m7 hdown).1, hmeq]
  refine ⟨?_, hc, ?_⟩
  · intro k hk
    unfold Counter.zero
    rw [if_neg (by omega)]
  · rw [hc]
    omega

/-- C10 witness: the fully drained example pool reports `MaxConns` = 1. -/
theorem drained_pool_active_conns_witness :
    (∀ k : Counter, k.c ≤ 0 → Counter.zero k = (true, { c := k.m, m := k.m })) ∧
    ActiveConns exPool2 = 1 ∧ ActiveConns exPool2 ≠ 0 :=
  drained_pool_active_conns 1 (by norm_num) exPool2 exPool_reach (by decide)

/-! ## service.go: the GetConn retry loop -/

/-- Result of `Service.GetConn`: a connection from the selected host,
`ErrNoHostAvailable`, or a pool error wrapped with the service name
(`fmt.Errorf("%s: %v", s.name, err)`). -/
inductive SvcGetRes where
  | ok (host : ℕ)
  | noHost
  | wrapped (e : PoolErr)
deriving DecidableEq

/-- Environment of a `GetConn` call, indexed by the attempt number:
whether the host map was empty at that attempt, which host the bandit
strategy selected, and the error `Pool.Get` returned (none = a
connection was obtained). -/
structure SvcEnv where
  hostsEmpty : ℕ → Bool
  selected : ℕ → ℕ
  getErr : ℕ → Option PoolErr

/-- service.go `GetConn`, the `again:` loop. `remaining` is
`GetAttempts - attempts` (the loop retries while
`attempts < GetAttempts`, incrementing `attempts`); `k` is the index
of the current attempt. Returns the result, the list of hosts rated
`HostDown` (one per attempt whose `Pool.Get` failed, in order), and
the attempt index after the final attempt. -/
def getConnLoop (env : SvcEnv) : ℕ → ℕ → SvcGetRes × List ℕ × ℕ
  | remaining, k =>
    if env.hostsEmpty k then
      match remaining with
      | r + 1 => getConnLoop env r (k + 1)
      | 0 => (.noHost, [], k + 1)
    else
      match env.getErr k with
      | some e =>
        match remaining with
        | r + 1 =>
          let res := getConnLoop env r (k + 1)
          (res.1, env.selected k :: res.2.1, res.2.2)
        | 0 => (.wrapped e, [env.selected k], k + 1)
      | none => (.ok (env.selected k), [], k + 1)

/-- `Service.GetConn` with `GetAttempts = ga`, starting at attempt 0. -/
def getConn (env : SvcEnv) (ga : ℕ) : SvcGetRes × List ℕ × ℕ :=
  getConnLoop env ga 0

/-- The host demoted at attempt `j`, when that attempt failed. -/
def ratedAt (env : SvcEnv) (j : ℕ) : Option ℕ :=
  if env.hostsEmpty j then none else (env.getErr j).map (fun _ => env.selected j)

lemma getConnLoop_empty_zero {env : SvcEnv} {k : ℕ} (hempty : env.hostsEmpty k = true) :
    getConnLoop env 0 k = (.noHost, [], k + 1) := by
  unfold getConnLoop
  rw [hempty]
  rfl

lemma getConnLoop_empty_succ {env : SvcEnv} {k r : ℕ} (hempty : env.hostsEmpty k = true) :
    getConnLoop env (r + 1) k = getConnLoop env r (k + 1) := by
  conv_lhs => rw [getConnLoop]
  rw [hempty]
  rfl

lemma getConnLoop_err_zero {env : SvcEnv} {k : ℕ} {e : PoolErr}
    (hempty : env.hostsEmpty k = false) (hget : env.getErr k = some e) :
    getConnLoop env 0 k = (.wrapped e, [env.selected k], k + 1) := by
  unfold getConnLoop
  rw [hempty, hget]
  rfl

lemma getConnLoop_err_succ {env : SvcEnv} {k r : ℕ} {e : PoolErr}
    (hempty : env.hostsEmpty k = false) (hget : env.getErr k = some e) :
    getConnLoop env (r + 1) k
      = ((getConnLoop env r (k + 1)).1,
         env.selected k :: (getConnLoop env r (k + 1)).2.1,
         (getConnLoop env r (k + 1)).2.2) := by
  conv_lhs => rw [getConnLoop]
  rw [hempty, hget]
  rfl

lemma getConnLoop_ok {env : SvcEnv} {k : ℕ} (rem : ℕ)
    (hempty : env.hostsEmpty k = false) (hget : env.getErr k = none) :
    getConnLoop env rem k = (.ok (env.selected k), [], k + 1) := by
  unfold getConnLoop
  rw [hempty, hget]
  rfl

lemma ratedAt_last_none {env : SvcEnv} {k : ℕ} (h : ratedAt env k = none) :
    (List.range' k 1).filterMap (ratedAt env) = [] := by
  simp [List.range', h]

lemma getConnLoop_char (env : SvcEnv) :
    ∀ (rem k : ℕ),
      (k < (getConnLoop env rem k).2.2 ∧ (getConnLoop env rem k).2.2 ≤ k + rem + 1) ∧
      ((getConnLoop env rem k).1 = .noHost →
          (getConnLoop env rem k).2.2 = k + rem + 1 ∧
          env.hostsEmpty (k + rem) = true) ∧
      (∀ e, (getConnLoop env rem k).1 = .wrapped e →
          (getConnLoop env rem k).2.2 = k + rem + 1 ∧
          env.hostsEmpty (k + rem) = false ∧ env.getErr (k + rem) = some e) ∧
      (getConnLoop env rem k).2.1
        = (List.range' k ((getConnLoop env rem k).2.2 - k)).filterMap (ratedAt env) := by
  intro rem
  induction rem with
  | zero =>
    intro k
    cases hempty : env.hostsEmpty k with
    | true =>
      rw [getConnLoop_empty_zero hempty]
      dsimp only
      refine ⟨⟨Nat.lt_succ_self k, by omega⟩, fun _ => ⟨rfl, by simpa using hempty⟩, ?_, ?_⟩
      · intro e he
        cases he
      · rw [show k + 1 - k = 1 by omega]
        rw [ratedAt_last_none (by simp [ratedAt, hempty])]
    | false =>
      cases hget : env.getErr k with
      | some e =>
        rw [getConnLoop_err_zero hempty hget]
        dsimp only
        refine ⟨⟨Nat.lt_succ_self k, by omega⟩, ?_, ?_, ?_⟩
        · intro he
          cases he
        · intro e' he'
          cases he'
          exact ⟨rfl, by simpa using hempty, by simpa using hget⟩
        · rw [show k + 1 - k = 1 by omega]
          simp [List.range', ratedAt, hempty, hget]
      | none =>
        rw [getConnLoop_ok 0 hempty hget]
        dsimp only
        refine ⟨⟨Nat.lt_succ_self k, by omega⟩, ?_, ?_, ?_⟩
        · intro he
          cases he
        · intro e' he'
          cases he'
        · rw [show k + 1 - k = 1 by omega]
          rw [ratedAt_last_none (by simp [ratedAt, hempty, hget])]
  | succ r ih =>
    intro k
    obtain ⟨⟨ih1a, ih1b⟩, ih2, ih3, ih4⟩ := ih (k + 1)
    cases hempty : env.hostsEmpty k with
    | true =>
      rw [getConnLoop_empty_succ hempty]
      refine ⟨⟨by omega, by omega⟩, ?_, ?_, ?_⟩
      · intro he
        obtain ⟨hn, hl⟩ := ih2 he
        exact ⟨by omega, by rw [show k + (r + 1) = k + 1 + r by omega]; exact hl⟩
      · intro e he
        obtain ⟨hn, hl, hg⟩ := ih3 e he
        refine ⟨by omega, ?_, ?_⟩
        · rw [show k + (r + 1) = k + 1 + r by omega]
          exact hl
        · rw [show k + (r + 1) = k + 1 + r by omega]
          exact hg
      · rw [ih4]
        rw [show (getConnLoop env r (k + 1)).2.2 - k
            = ((getConnLoop env r (k + 1)).2.2 - (k + 1)) + 1 by omega]
        rw [List.range'_succ]
        simp [ratedAt, hempty]
    | false =>
      cases hget : env.getErr k with
      | some e =>
        rw [getConnLoop_err_succ hempty hget]
        dsimp only
        refine ⟨⟨by omega, by omega⟩, ?_, ?_, ?_⟩
        · intro he
          obtain ⟨hn, hl⟩ := ih2 he
          exact ⟨by omega, by rw [show k + (r + 1) = k + 1 + r by omega]; exact hl⟩
        · intro e' he'
          obtain ⟨hn, hl, hg⟩ := ih3 e' he'
          refine ⟨by omega, ?_, ?_⟩
          · rw [show k + (r + 1) = k + 1 + r by omega]
            exact hl
          · rw [show k + (r + 1) = k + 1 + r by omega]
            exact hg
        · show env.selected k :: (getConnLoop env r (k + 1)).2.1 = _
          rw [ih4]
          rw [show (getConnLoop env r (k + 1)).2.2 - k
              = ((getConnLoop env r (k + 1)).2.2 - (k + 1)) + 1 by omega]
          rw [List.range'_succ]
          simp [ratedAt, hempty, hget]
      | none =>
        rw [getConnLoop_ok (r + 1) hempty hget]
        dsimp only
        refine ⟨⟨Nat.lt_succ_self k, by omega⟩, ?_, ?_, ?_⟩
        · intro he
          cases he
        · intro e' he'
          cases he'
        · rw [show k + 1 - k = 1 by omega]
          rw [ratedAt_last_none (by simp [ratedAt, hempty, hget])]

/-- Environment where every attempt finds hosts but `Pool.Get` times
out. -/
def exSvcEnv : SvcEnv := ⟨fun _ => false, fun _ => 7, fun _ => some .opTimeout⟩

/-- Environment where the host map is always empty. -/
def cexSvcEnv : SvcEnv := ⟨fun _ => true, fun _ => 0, fun _ => none⟩

/-- C6 counterexample: with `GetAttempts = 1` and a permanently empty
host set, `GetConn` runs 2 loop iterations (the attempt index after
the final attempt is 2), not at most 1: the loop guard is
`attempts < GetAttempts` with `attempts` starting at 0, so there are
`GetAttempts` retries after the initial attempt. -/
theorem getConn_iters_cex :
    (getConn cexSvcEnv 1).2.2 = 2 ∧ ¬ ((getConn cexSvcEnv 1).2.2 ≤ 1) ∧
    (getConn cexSvcEnv 1).1 = .noHost := by
  refine ⟨by decide, by decide, by decide⟩

/-- C6 (amended): `GetConn` performs at most `GetAttempts + 1` loop
iterations (the initial attempt plus up to `GetAttempts` retries).
When it returns an error, all `GetAttempts + 1` attempts were used,
and the error is NO_HOST_AVAILABLE exactly when the final attempt saw
an empty host set, and the pool error wrapped with the service name
exactly when the final attempt's `Pool.Get` failed. The hosts rated
`HostDown` (score 0) are exactly the hosts selected at the attempts
whose `Pool.Get` returned an error, in attempt order. -/
theorem getConn_spec (env : SvcEnv) (ga : ℕ) :
    (getConn env ga).2.2 ≤ ga + 1 ∧
    ((getConn env ga).1 = .noHost →
        (getConn env ga).2.2 = ga + 1 ∧ env.hostsEmpty ga = true) ∧
    (∀ e, (getConn env ga).1 = .wrapped e →
        (getConn env ga).2.2 = ga + 1 ∧
        env.hostsEmpty ga = false ∧ env.getErr ga = some e) ∧
    (getConn env ga).2.1
      = (List.range' 0 (getConn env ga).2.2).filterMap (ratedAt env) := by
  obtain ⟨⟨h1a, h1b⟩, h2, h3, h4⟩ := getConnLoop_char env ga 0
  refine ⟨by simpa using h1b, ?_, ?_, ?_⟩
  · intro he
    obtain ⟨hn, hl⟩ := h2 he
    exact ⟨by simpa using hn, by simpa using hl⟩
  · intro e he
    obtain ⟨hn, hl, hg⟩ := h3 e he
    exact ⟨by simpa using hn, by simpa using hl, by simpa using hg⟩
  · simpa using h4

/-- C6 witness: the characterization applied to an environment whose
`Pool.Get` always times out with `GetAttempts = 1`. -/
theorem getConn_spec_witness :
    (getConn exSvcEnv 1).2.2 = 1 + 1 ∧
    exSvcEnv.hostsEmpty 1 = false ∧ exSvcEnv.getErr 1 = some .opTimeout :=
  (getConn_spec exSvcEnv 1).2.2.1 .opTimeout (by decide)

/-! ## conn.go: Release -/

/-- Service-level errors used by `Conn.Release`
(`ErrInvalidArg`, `ErrNoHostAvailable`). -/
inductive SvcErr where
  | invalidArg
  | noHostAvailable
deriving DecidableEq

/-- The kinds of value `Release` accepts for its `err interface{}`
argument (conn.go, the type switch): an error value, a
pointer-to-error (whose pointee may be nil), the nil literal, or
anything else. Error values are abstracted as naturals. -/
inductive RelArg where
  | errVal (e : ℕ)
  | errPtr (e : Option ℕ)
  | nilArg
  | other
deriving DecidableEq

/-- The error the type switch resolves, or none when the argument has
an unsupported type. -/
def resolveErr : RelArg → Option (Option ℕ)
  | .errVal e => some (some e)
  | .errPtr e => some e
  | .nilArg => some none
  | .other => none

/-- The release-relevant state of a connection: its host back-link. -/
structure ConnSt where
  host : Option ℕ
deriving DecidableEq

/-- conn.go `Release`: rejects a null back-link with
`ErrNoHostAvailable`, then a score outside [0,1] with `ErrInvalidArg`,
then resolves the error argument through the type switch (unsupported
types → `ErrInvalidArg`), nulls the back-link and forwards the
connection, the resolved error and the score to `Host.releaseConn`
(represented by the returned tuple). -/
def release (c : ConnSt) (err : RelArg) (score : ℚ) :
    SvcErr ⊕ (ConnSt × ℕ × Option ℕ × ℚ) :=
  match c.host with
  | none => .inl .noHostAvailable
  | some h =>
    if score < 0 ∨ score > 1 then .inl .invalidArg
    else
      match err with
      | .errVal e => .inr (⟨none⟩, h, some e, score)
      | .errPtr e => .inr (⟨none⟩, h, e, score)
      | .nilArg => .inr (⟨none⟩, h, none, score)
      | .other => .inl .invalidArg

/-- C7 counterexample: a call violating both validations — null
back-link and out-of-range score — returns NO_HOST_AVAILABLE, not
INVALID_ARG: the code checks the back-link first, not the score. -/
theorem release_order_cex :
    release ⟨none⟩ .nilArg 2 = .inl .noHostAvailable ∧
    ¬ release ⟨none⟩ .nilArg 2 = .inl .invalidArg := by
  refine ⟨rfl, by decide⟩

/-- C7 (amended): `Release` validates the back-link first — a null
back-link yields NO_HOST_AVAILABLE even when the score is also out of
range — then validates `0 ≤ score ≤ 1` (INVALID_ARG otherwise), then
nulls the back-link and forwards the connection, the resolved error
and the score to `Host.releaseConn`; an argument of unsupported type
yields INVALID_ARG. -/
theorem release_spec (c : ConnSt) (err : RelArg) (score : ℚ) :
    (c.host = none → release c err score = .inl .noHostAvailable) ∧
    (∀ h, c.host = some h → (score < 0 ∨ 1 < score) →
        release c err score = .inl .invalidArg) ∧
    (∀ h e, c.host = some h → 0 ≤ score → score ≤ 1 → resolveErr err = some e →
        release c err score = .inr (⟨none⟩, h, e, score)) ∧
    (∀ h, c.host = some h → 0 ≤ score → score ≤ 1 → resolveErr err = none →
        release c err score = .inl .invalidArg) := by
  refine ⟨?_, ?_, ?_, ?_⟩
  · intro h0
    unfold release
    rw [h0]
  · intro h hh hs
    unfold release
    rw [hh]
    dsimp only
    rw [if_pos hs]
  · intro h e hh hs0 hs1 hres
    unfold release
    rw [hh]
    dsimp only
    rw [if_neg (not_or.mpr ⟨not_lt.mpr hs0, not_lt.mpr hs1⟩)]
    cases err with
    | errVal e' => cases hres; rfl
    | errPtr e' => cases hres; rfl
    | nilArg => cases hres; rfl
    | other => cases hres
  · intro h hh hs0 hs1 hres
    unfold release
    rw [hh]
    dsimp only
    rw [if_neg (not_or.mpr ⟨not_lt.mpr hs0, not_lt.mpr hs1⟩)]
    cases err with
    | errVal e' => cases hres
    | errPtr e' => cases hres
    | nilArg => cases hres
    | other => rfl

/-- C7 witness: a valid release forwards conn, resolved nil error and
score. -/
theorem release_spec_witness :
    release ⟨some 3⟩ .nilArg (1 / 2) = .inr (⟨none⟩, 3, none, 1 / 2) :=
  (release_spec ⟨some 3⟩ .nilArg (1 / 2)).2.2.1 3 none rfl (by norm_num) (by norm_num) rfl

/-! ## host.go: the SoftMax bandit strategy -/

/-- A host as the SoftMax selector sees it: an identity and the
memoized score (−1 when no score was recorded yet). -/
structure SMHost where
  id : ℕ
  score : ℚ
deriving DecidableEq

/-- First loop of `SoftMax.Select`: the exp weight of one host. A
negative (unrecorded) score contributes 0; otherwise `expf`, which
models `math.Exp(score/temperature)` and is therefore strictly
positive, but is kept abstract here. -/
def smWeight (expf : ℚ → ℚ) (h : SMHost) : ℚ :=
  if h.score < 0 then 0 else expf h.score

/-- Second loop of `SoftMax.Select`: walk the hosts accumulating
`exp[h]/sum` and return the first host whose cumulative probability
exceeds `p`; when the total weight is zero return the first host
encountered; falling off the end returns nil. -/
def smLoop (expf : ℚ → ℚ) (sum p : ℚ) : List SMHost → ℚ → Option SMHost
  | [], _ => none
  | h :: rest, prob =>
    if sum = 0 then some h
    else
      if p < prob + smWeight expf h / sum then some h
      else smLoop expf sum p rest (prob + smWeight expf h / sum)

/-- host.go, `SoftMax.Select` over a list representing the map's
iteration order (the exp map is keyed by host, so using one order for
both loops loses no generality). -/
def smSelect (expf : ℚ → ℚ) (hosts : List SMHost) (p : ℚ) : Option SMHost :=
  smLoop expf ((hosts.map (smWeight expf)).sum) p hosts 0

lemma smLoop_sum_zero (expf : ℚ → ℚ) (p : ℚ) (l : List SMHost) (prob : ℚ)
    (hl : l ≠ []) : smLoop expf 0 p l prob = some (l.head hl) := by
  cases l with
  | nil => exact absurd rfl hl
  | cons h rest =>
    unfold smLoop
    rw [if_pos rfl]
    rfl

lemma smWeight_nonneg {expf : ℚ → ℚ} (hexp : ∀ x, 0 < expf x) (h : SMHost) :
    0 ≤ smWeight expf h := by
  unfold smWeight
  split
  · exact le_rfl
  · exact (hexp h.score).le

lemma sum_weights_nonneg {expf : ℚ → ℚ} (hexp : ∀ x, 0 < expf x) (l : List SMHost) :
    0 ≤ (l.map (smWeight expf)).sum := by
  induction l with
  | nil => simp
  | cons h rest ih =>
    simp only [List.map_cons, List.sum_cons]
    have := smWeight_nonneg hexp h
    linarith

lemma sum_weights_zero_iff {expf : ℚ → ℚ} (hexp : ∀ x, 0 < expf x) (l : List SMHost) :
    (l.map (smWeight expf)).sum = 0 ↔ ∀ h ∈ l, h.score < 0 := by
  induction l with
  | nil => simp
  | cons h rest ih =>
    simp only [List.map_cons, List.sum_cons, List.mem_cons]
    have hw := smWeight_nonneg hexp h
    have hs := sum_weights_nonneg hexp rest
    constructor
    · intro h0
      have hwz : smWeight expf h = 0 := by linarith
      have hsz : (rest.map (smWeight expf)).sum = 0 := by linarith
      have hhs : h.score < 0 := by
        by_contra hge
        unfold smWeight at hwz
        rw [if_neg hge] at hwz
        exact absurd hwz (ne_of_gt (hexp h.score))
      intro x hx
      rcases hx with rfl | hx
      · exact hhs
      · exact (ih.mp hsz) x hx
    · intro hall
      have hwz : smWeight expf h = 0 := by
        unfold smWeight
        rw [if_pos (hall h (Or.inl rfl))]
      have hsz : (rest.map (smWeight expf)).sum = 0 :=
        ih.mpr (fun x hx => hall x (Or.inr hx))
      rw [hwz, hsz]
      norm_num

lemma smLoop_some (expf : ℚ → ℚ) (sum p : ℚ) (hsum : sum ≠ 0) :
    ∀ (l : List SMHost) (prob : ℚ), l ≠ [] →
      p < prob + (l.map (smWeight expf)).sum / sum →
      ∃ h, smLoop expf sum p l prob = some h ∧ h ∈ l := by
  intro l
  induction l with
  | nil =>
    intro prob hne _
    exact absurd rfl hne
  | cons h rest ih =>
    intro prob _ hp
    unfold smLoop
    rw [if_neg hsum]
    by_cases hcase : p < prob + smWeight expf h / sum
    · rw [if_pos hcase]
      exact ⟨h, rfl, List.mem_cons_self h rest⟩
    · rw [if_neg hcase]
      rw [List.map_cons, List.sum_cons, add_div] at hp
      cases rest with
      | nil =>
        exfalso
        simp only [List.map_nil, List.sum_nil, zero_div, add_zero] at hp
        exact hcase (by linarith)
      | cons h2 r2 =>
        obtain ⟨h', hres, hmem⟩ := ih (prob + smWeight expf h / sum) (by simp)
          (by linarith)
        exact ⟨h', hres, List.mem_cons_of_mem h hmem⟩

/-- C8: for every non-empty host list (a fixed iteration order of the
host map) and every uniform draw `p ∈ [0,1)`, `SoftMax.Select`
returns a host present in the input and never a null result: the
total weight is zero exactly when every host's memoized score is
negative, in which case the first host encountered is returned, and
otherwise the first host at which the accumulated probability
`w_i / sum(w)` exceeds `p` is returned (one exists because the
cumulative probabilities reach `1 > p`). -/
theorem smSelect_spec (expf : ℚ → ℚ) (hosts : List SMHost) (p : ℚ)
    (hne : hosts ≠ []) (hexp : ∀ x, 0 < expf x) (hp0 : 0 ≤ p) (hp1 : p < 1) :
    (∃ h, smSelect expf hosts p = some h ∧ h ∈ hosts) ∧
    ((hosts.map (smWeight expf)).sum = 0 ↔ ∀ h ∈ hosts, h.score < 0) ∧
    ((hosts.map (smWeight expf)).sum = 0 →
        smSelect expf hosts p = some (hosts.head hne)) := by
  refine ⟨?_, sum_weights_zero_iff hexp hosts, ?_⟩
  · by_cases hS : (hosts.map (smWeight expf)).sum = 0
    · refine ⟨hosts.head hne, ?_, List.head_mem hne⟩
      unfold smSelect
      rw [hS]
      exact smLoop_sum_zero expf p hosts 0 hne
    · unfold smSelect
      refine smLoop_some expf _ p hS hosts 0 hne ?_
      rw [div_self hS, zero_add]
      exact hp1
  · intro hS
    unfold smSelect
    rw [hS]
    exact smLoop_sum_zero expf p hosts 0 hne

/-- Concrete host list for the SoftMax witness. -/
def exSMHosts : List SMHost := [⟨0, 1 / 2⟩]

/-- C8 witness: the theorem at a one-host list, unit exp function and
draw 0. -/
theorem smSelect_spec_witness :
    (∃ h, smSelect (fun _ => 1) exSMHosts 0 = some h ∧ h ∈ exSMHosts) ∧
    ((exSMHosts.map (smWeight (fun _ => 1))).sum = 0 ↔ ∀ h ∈ exSMHosts, h.score < 0) ∧
    ((exSMHosts.map (smWeight (fun _ => 1))).sum = 0 →
        smSelect (fun _ => 1) exSMHosts 0 = some (exSMHosts.head (by decide))) :=
  smSelect_spec (fun _ => 1) exSMHosts 0 (by decide) (fun x => by norm_num)
    (le_refl 0) (by norm_num)

end Pooly
